import Mathlib

/-!
# Verification of the Proxy-SC scrape-validate-aggregate pipeline

Shallow embedding of `main.py` (classes `Proxy`, `Folder`,
`ProxyScraperChecker`, the module-level sorting keys, and the concrete
`ip:port` extraction regex), together with theorems settling the frozen
claims about the natural-language specification.

Modelling conventions:
* Python strings are Lean `String`s; where character-level scanning is
  required (the regex) we work on `List Char`.
* Python `float` wall-clock times are modelled as `ℚ`; the sentinel
  `float("inf")` initial value of `Proxy.timeout` is modelled as `none`
  in an `Option ℚ` (a measured elapsed time `t` is `some t`).
* A decoded JSON object (`response.json()`) is modelled as an association
  list `List (String × String)`; Python dict truthiness (`if data:`) is
  emptiness of that list, and `dict.get` is `lookup?` below.
* A Python `set` of `Proxy` is modelled as a duplicate-free-by-`proxyEq`
  list; `set.add` / `set.remove` are `pySetAdd` / `removeByEq`.
* Filesystem effects of `save_proxies` are modelled as a trace of
  `FsOp` events in program order.
-/

/-- The `Proxy` class of `main.py`: one candidate endpoint plus measured
metadata.  Field defaults mirror `Proxy.__init__`. -/
structure Proxy where
  socket_address : String
  ip : String
  is_anonymous : Option Bool := none
  geolocation : String := "|?|?|?"
  /-- `none` models the `float("inf")` "not yet measured" sentinel. -/
  timeout : Option ℚ := none
deriving DecidableEq, Repr

/-- `Proxy(socket_address, ip)` — the constructor `Proxy.__init__`. -/
def mkProxy (socket_address ip : String) : Proxy :=
  { socket_address := socket_address, ip := ip }

/-- `dict.get(key)` on a decoded JSON object modelled as an assoc list. -/
def lookup? (data : List (String × String)) (key : String) : Option String :=
  (data.find? (fun kv => kv.1 = key)).map (fun kv => kv.2)

/-- `data.get(k) or "?"`: Python `or` falls through to `"?"` both when the
key is absent (`None`) and when the value is falsy (the empty string). -/
def orQ (v : Option String) : String :=
  match v with
  | some s => if s = "" then "?" else s
  | none => "?"

/-- `Proxy.update`: populate `geolocation` from the payload's
country/regionName/city fields and set `is_anonymous` by comparing the
candidate's own `ip` with the payload's `query` field (`self.ip !=
data.get("query")`; an absent `query` compares unequal, as in Python). -/
def Proxy.update (p : Proxy) (data : List (String × String)) : Proxy :=
  { p with
    geolocation :=
      "|" ++ orQ (lookup? data "country") ++ "|"
          ++ orQ (lookup? data "regionName") ++ "|"
          ++ orQ (lookup? data "city"),
    is_anonymous := some (decide (¬ some p.ip = lookup? data "query")) }

/-- `Proxy.__eq__`: equality holds iff the `socket_address` fields match. -/
def proxyEq (a b : Proxy) : Bool :=
  a.socket_address == b.socket_address

/-- `Proxy.__hash__`: `hash(("socket_address", self.socket_address))` —
keyed on the `socket_address` field only. -/
def proxyHash (a : Proxy) : UInt64 :=
  hash ("socket_address", a.socket_address)

/-- `set.add` on a Python set of `Proxy`: a no-op when an element equal
(in the `Proxy.__eq__` sense) is already present. -/
def pySetAdd (s : List Proxy) (p : Proxy) : List Proxy :=
  if s.any (fun q => proxyEq q p) then s else s ++ [p]

/-- `set.remove(p)`: drop the element(s) equal to `p` by `Proxy.__eq__`. -/
def removeByEq (s : List Proxy) (p : Proxy) : List Proxy :=
  s.filter (fun q => ! proxyEq q p)

/-- In-place mutation of the set element equal to `p` (Python mutates the
`Proxy` object; set membership is keyed on the unchanged address). -/
def replaceByEq (s : List Proxy) (p p' : Proxy) : List Proxy :=
  s.map (fun q => if proxyEq q p then p' else q)

/-- `"pat" in s` — Python substring containment test. -/
def containsStr (s pat : String) : Bool :=
  2 ≤ (s.splitOn pat).length

/-- The `Folder` class: an output-category directory.  `Folder.__init__`
derives the flags from the folder name by substring tests. -/
structure Folder where
  path : String
  for_anonymous : Bool
  for_geolocation : Bool
deriving DecidableEq, Repr

/-- `Folder(path, folder_name)`. -/
def mkFolder (base folder_name : String) : Folder :=
  { path := base ++ "/" ++ folder_name,
    for_anonymous := containsStr folder_name "anon",
    for_geolocation := containsStr folder_name "geo" }

/-- The keyword arguments of `ProxyScraperChecker.__init__`. -/
structure CheckerCfg where
  timeout : ℚ
  max_connections : Nat
  sort_by_speed : Bool
  save_path : String
  proxies : Bool
  proxies_anonymous : Bool
  proxies_geolocation : Bool
  proxies_geolocation_anonymous : Bool
  http_sources : Option String
  socks4_sources : Option String
  socks5_sources : Option String

/-- The state built by `ProxyScraperChecker.__init__` (the fields the
claims depend on; console/progress objects are out of scope). -/
structure Checker where
  path : String
  all_folders : List Folder
  enabled_folders : List Folder
  sort_by_speed : Bool
  timeout : ℚ
  max_connections : Nat
  sources : List (String × List String)
deriving Repr

/-- `sources.splitlines()` filtered of empty lines; a `None` or empty
`Sources` string is falsy, so the protocol is dropped altogether. -/
def mkSources (v : Option String) : Option (List String) :=
  match v with
  | none => none
  | some s => if s = "" then none else some ((s.splitOn "\n").filter (fun x => ¬ x = ""))

/-- `ProxyScraperChecker.__init__`: builds the four `Folder`s from the
static name→flag mapping, keeps the enabled ones, and raises
`ValueError` when none is enabled.  (The mirrored construction is pure;
in `main.py` every network request happens only later, in methods of the
successfully constructed object.) -/
def ProxyScraperChecker.make (cfg : CheckerCfg) : Except String Checker :=
  let folders_mapping : List (String × Bool) :=
    [("proxies", cfg.proxies),
     ("proxies_anonymous", cfg.proxies_anonymous),
     ("proxies_geolocation", cfg.proxies_geolocation),
     ("proxies_geolocation_anonymous", cfg.proxies_geolocation_anonymous)]
  let pairs := folders_mapping.map (fun nb => (mkFolder cfg.save_path nb.1, nb.2))
  let all_folders := pairs.map (fun x => x.1)
  let enabled_folders := (pairs.filter (fun x => x.2)).map (fun x => x.1)
  if enabled_folders.isEmpty then
    Except.error "all folders are disabled in the config"
  else
    Except.ok
      { path := cfg.save_path,
        all_folders := all_folders,
        enabled_folders := enabled_folders,
        sort_by_speed := cfg.sort_by_speed,
        timeout := cfg.timeout,
        max_connections := cfg.max_connections,
        sources :=
          [("http", cfg.http_sources), ("socks4", cfg.socks4_sources),
           ("socks5", cfg.socks5_sources)].filterMap
            (fun pv => (mkSources pv.2).map (fun l => (pv.1, l))) }

/-- The source URLs the pipeline would fetch: none at all when
construction fails, otherwise every configured source of every enabled
protocol (`fetch_all_sources`). -/
def pipeline_fetch_urls (cfg : CheckerCfg) : List String :=
  match ProxyScraperChecker.make cfg with
  | Except.error _ => []
  | Except.ok c => (c.sources.map (fun pv => pv.2)).flatten

/-- Split a character list on a separator character (`str.split(sep)`). -/
def splitOnChar (sep : Char) : List Char → List (List Char)
  | [] => [[]]
  | c :: s =>
    if c = sep then [] :: splitOnChar sep s
    else
      match splitOnChar sep s with
      | [] => [[c]]
      | g :: gs => (c :: g) :: gs

/-- Numeric value of a digit string (`int(...)` on a digit-only string). -/
def digitsVal (cs : List Char) : Nat :=
  cs.foldl (fun n c => n * 10 + (c.toNat - 48)) 0

/-- `alphabet_sorting_key`:
`tuple(map(int, proxy.socket_address.replace(":", ".").split(".")))`. -/
def alphabet_sorting_key (p : Proxy) : List Nat :=
  (splitOnChar '.'
      (p.socket_address.toList.map (fun c => if c = ':' then '.' else c))).map
    digitsVal

/-- `speed_sorting_key`: the proxy's `timeout` field (`none` = `inf`). -/
def speed_sorting_key (p : Proxy) : Option ℚ :=
  p.timeout

/-- Python tuple `<=` on integer tuples: lexicographic, numeric per
component, a strict prefix sorting first. -/
def keyLe : List Nat → List Nat → Bool
  | [], _ => true
  | _ :: _, [] => false
  | a :: as, b :: bs =>
    if a < b then true else if b < a then false else keyLe as bs

theorem keyLe_total : ∀ a b : List Nat, (keyLe a b || keyLe b a) = true := by
  intro a
  induction a with
  | nil => intro b; simp [keyLe]
  | cons x xs ih =>
    intro b
    cases b with
    | nil => simp [keyLe]
    | cons y ys =>
      by_cases h1 : x < y
      · simp [keyLe, h1]
      · by_cases h2 : y < x
        · simp [keyLe, h1, h2]
        · have hxy : x = y := by omega
          subst hxy
          simp [keyLe, Nat.lt_irrefl, ih ys]

theorem keyLe_trans :
    ∀ a b c : List Nat, keyLe a b = true → keyLe b c = true → keyLe a c = true := by
  intro a
  induction a with
  | nil => intro b c _ _; simp [keyLe]
  | cons x xs ih =>
    intro b c hab hbc
    cases b with
    | nil => simp [keyLe] at hab
    | cons y ys =>
      cases c with
      | nil => simp [keyLe] at hbc
      | cons z zs =>
        by_cases h1 : x < y
        · by_cases h2 : y < z
          · simp [keyLe, Nat.lt_trans h1 h2]
          · by_cases h3 : z < y
            · simp [keyLe, h2, h3] at hbc
            · have hyz : y = z := by omega
              subst hyz
              simp [keyLe, h1]
        · by_cases h4 : y < x
          · simp [keyLe, h1, h4] at hab
          · have hxy : x = y := by omega
            subst hxy
            simp only [keyLe, Nat.lt_irrefl, if_false] at hab
            by_cases h2 : x < z
            · simp [keyLe, h2]
            · by_cases h3 : z < x
              · simp [keyLe, h2, h3] at hbc
              · have hxz : x = z := by omega
                subst hxz
                simp only [keyLe, Nat.lt_irrefl, if_false] at hbc ⊢
                exact ih ys zs hab hbc

/-- The comparison `sorted(..., key=alphabet_sorting_key)` sorts by. -/
def proxyAddrLe (a b : Proxy) : Bool :=
  keyLe (alphabet_sorting_key a) (alphabet_sorting_key b)

theorem proxyAddrLe_trans :
    ∀ a b c : Proxy, proxyAddrLe a b → proxyAddrLe b c → proxyAddrLe a c :=
  fun _ _ _ => keyLe_trans _ _ _

theorem proxyAddrLe_total : ∀ a b : Proxy, proxyAddrLe a b || proxyAddrLe b a :=
  fun _ _ => keyLe_total _ _

/-- The comparison `sorted(..., key=speed_sorting_key)` sorts by
(`none` models the `inf` sentinel, larger than every measurement). -/
def proxySpeedLe (a b : Proxy) : Bool :=
  match speed_sorting_key a, speed_sorting_key b with
  | _, none => true
  | none, some _ => false
  | some x, some y => decide (x ≤ y)

/-- `sorted(proxies, key=alphabet_sorting_key)` (a stable sort, as CPython's). -/
def sortByAddress (l : List Proxy) : List Proxy :=
  l.mergeSort proxyAddrLe

/-- `sorted(proxies, key=speed_sorting_key)`. -/
def sortBySpeed (l : List Proxy) : List Proxy :=
  l.mergeSort proxySpeedLe

/-- The `sorted_proxies` property: each protocol's set sorted with the
key selected by `sort_by_speed`. -/
def sorted_proxies (sort_by_speed : Bool) (proxies : List (String × List Proxy)) :
    List (String × List Proxy) :=
  proxies.map
    (fun pp => (pp.1, if sort_by_speed then sortBySpeed pp.2 else sortByAddress pp.2))

/-- C6: two `Proxy` values are equal iff their `socket_address` fields
match; hashing is keyed on the same field; consequently inserting two
proxies built from the same socket address (in either order, whatever
their other fields) into one set yields a set with exactly one element. -/
theorem proxy_identity_dedup (p q : Proxy) :
    (proxyEq p q = true ↔ p.socket_address = q.socket_address) ∧
    (p.socket_address = q.socket_address →
      proxyHash p = proxyHash q ∧
      (pySetAdd (pySetAdd [] p) q).length = 1 ∧
      (pySetAdd (pySetAdd [] q) p).length = 1) := by
  constructor
  · simp [proxyEq]
  · intro h
    refine ⟨by simp [proxyHash, h], ?_, ?_⟩ <;>
      simp [pySetAdd, proxyEq, h]

/-- Witness for C6 at two concrete proxies sharing an address but
differing in every other field. -/
theorem proxy_identity_dedup_witness :
    proxyHash (mkProxy "1.2.3.4:80" "1.2.3.4") =
      proxyHash { socket_address := "1.2.3.4:80", ip := "other",
                  is_anonymous := some true, geolocation := "|US|?|?",
                  timeout := some 1 } ∧
    (pySetAdd (pySetAdd [] (mkProxy "1.2.3.4:80" "1.2.3.4"))
        { socket_address := "1.2.3.4:80", ip := "other",
          is_anonymous := some true, geolocation := "|US|?|?",
          timeout := some 1 }).length = 1 ∧
    (pySetAdd (pySetAdd []
        { socket_address := "1.2.3.4:80", ip := "other",
          is_anonymous := some true, geolocation := "|US|?|?",
          timeout := some 1 }) (mkProxy "1.2.3.4:80" "1.2.3.4")).length = 1 :=
  (proxy_identity_dedup (mkProxy "1.2.3.4:80" "1.2.3.4")
    { socket_address := "1.2.3.4:80", ip := "other",
      is_anonymous := some true, geolocation := "|US|?|?",
      timeout := some 1 }).2 rfl

/-- C8: with all four output categories disabled, construction raises
`ValueError` (whatever the other configuration parameters), and the
pipeline performs no network activity: the set of URLs it would fetch is
empty. -/
theorem all_folders_disabled_fatal (t : ℚ) (mc : Nat) (sbs : Bool)
    (sp : String) (hs s4 s5 : Option String) :
    ProxyScraperChecker.make
        { timeout := t, max_connections := mc, sort_by_speed := sbs,
          save_path := sp, proxies := false, proxies_anonymous := false,
          proxies_geolocation := false,
          proxies_geolocation_anonymous := false,
          http_sources := hs, socks4_sources := s4, socks5_sources := s5 }
      = Except.error "all folders are disabled in the config" ∧
    pipeline_fetch_urls
        { timeout := t, max_connections := mc, sort_by_speed := sbs,
          save_path := sp, proxies := false, proxies_anonymous := false,
          proxies_geolocation := false,
          proxies_geolocation_anonymous := false,
          http_sources := hs, socks4_sources := s4, socks5_sources := s5 }
      = [] := by
  constructor
  · rfl
  · simp [pipeline_fetch_urls, ProxyScraperChecker.make]

/-- C7: sorting by address compares host octets and port numerically,
not lexically: in the address-sorted output of any list containing a
proxy with address `"2.0.0.1:80"` and one with `"10.0.0.1:80"`, the
former appears strictly before the latter. -/
theorem address_sort_numeric (l : List Proxy) (p2 p10 : Proxy)
    (h2a : p2.socket_address = "2.0.0.1:80")
    (h10a : p10.socket_address = "10.0.0.1:80")
    (h2 : p2 ∈ l) (h10 : p10 ∈ l) :
    ∃ (i j : Nat) (hi : i < (sortByAddress l).length)
      (hj : j < (sortByAddress l).length),
      i < j ∧ (sortByAddress l)[i] = p2 ∧ (sortByAddress l)[j] = p10 := by
  have hmem2 : p2 ∈ sortByAddress l := by
    simpa [sortByAddress] using h2
  have hmem10 : p10 ∈ sortByAddress l := by
    simpa [sortByAddress] using h10
  obtain ⟨i, hi, hgi⟩ := List.mem_iff_getElem.mp hmem2
  obtain ⟨j, hj, hgj⟩ := List.mem_iff_getElem.mp hmem10
  have hpw : (sortByAddress l).Pairwise (fun a b => proxyAddrLe a b = true) := by
    simpa [sortByAddress] using
      List.sorted_mergeSort proxyAddrLe_trans proxyAddrLe_total l
  have hne : p2 ≠ p10 := by
    intro h
    rw [h, h10a] at h2a
    exact absurd h2a (by decide)
  have hkey : proxyAddrLe p10 p2 = false := by
    unfold proxyAddrLe alphabet_sorting_key
    rw [h2a, h10a]
    decide
  rcases Nat.lt_trichotomy i j with hij | hij | hij
  · exact ⟨i, j, hi, hj, hij, hgi, hgj⟩
  · exfalso
    subst hij
    exact hne (hgi.symm.trans hgj)
  · exfalso
    have hle := List.pairwise_iff_getElem.mp hpw j i hj hi hij
    rw [hgj, hgi] at hle
    rw [hle] at hkey
    exact Bool.noConfusion hkey

/-- Witness for C7 on the concrete two-element list (given in discovery
order `10.0.0.1:80`, then `2.0.0.1:80`). -/
theorem address_sort_numeric_witness :
    ∃ (i j : Nat)
      (hi : i < (sortByAddress
        [mkProxy "10.0.0.1:80" "10.0.0.1", mkProxy "2.0.0.1:80" "2.0.0.1"]).length)
      (hj : j < (sortByAddress
        [mkProxy "10.0.0.1:80" "10.0.0.1", mkProxy "2.0.0.1:80" "2.0.0.1"]).length),
      i < j ∧
      (sortByAddress
        [mkProxy "10.0.0.1:80" "10.0.0.1", mkProxy "2.0.0.1:80" "2.0.0.1"])[i]
        = mkProxy "2.0.0.1:80" "2.0.0.1" ∧
      (sortByAddress
        [mkProxy "10.0.0.1:80" "10.0.0.1", mkProxy "2.0.0.1:80" "2.0.0.1"])[j]
        = mkProxy "10.0.0.1:80" "10.0.0.1" :=
  address_sort_numeric
    [mkProxy "10.0.0.1:80" "10.0.0.1", mkProxy "2.0.0.1:80" "2.0.0.1"]
    (mkProxy "2.0.0.1:80" "2.0.0.1") (mkProxy "10.0.0.1:80" "10.0.0.1")
    rfl rfl (by decide) (by decide)

/-- The observable outcome of one `check_proxy` probe attempt.
`failure` models any exception raised inside the `try` block (connect
error, per-check timeout, or a JSON body that fails to decode);
`response` models a completed HTTP round trip through the candidate with
the given status, measured elapsed wall time, and — when the status is
200 — the decoded JSON object. -/
inductive ProbeResult where
  | failure
  | response (status : Nat) (elapsed : ℚ) (payload : List (String × String))

/-- The `else` branch of `check_proxy`: `data` is the decoded body only
when the status is 200 (`None` otherwise); `proxy.timeout` is set to the
elapsed wall time, and `proxy.update(data)` runs only when `data` is
truthy (not `None` and a non-empty dict). -/
def applyCheck (p : Proxy) (status : Nat) (elapsed : ℚ)
    (payload : List (String × String)) : Proxy :=
  let data : Option (List (String × String)) :=
    if status == 200 then some payload else none
  let p1 : Proxy := { p with timeout := some elapsed }
  match data with
  | some d => if d.isEmpty then p1 else p1.update d
  | none => p1

/-- `ProxyScraperChecker.check_proxy`, as a transformation of the
candidate's protocol set: on an exception the candidate is removed from
the set (`self.proxies[proto].remove(proxy)`); on a completed response
the candidate object is mutated in place (`applyCheck`) and the set
keeps it. -/
def check_proxy (s : List Proxy) (p : Proxy) (r : ProbeResult) : List Proxy :=
  match r with
  | ProbeResult.failure => removeByEq s p
  | ProbeResult.response st e pl => replaceByEq s p (applyCheck p st e pl)

/-- `ProxyScraperChecker.check_all_proxies` restricted to one protocol:
the protocol's set after each scheduled candidate's check has run with
its own probe outcome. -/
def check_all (s : List Proxy) (steps : List (Proxy × ProbeResult)) : List Proxy :=
  steps.foldl (fun st step => check_proxy st step.1 step.2) s

/-- `Proxy.update` never touches the identity key. -/
theorem update_socket_address (p : Proxy) (d : List (String × String)) :
    (p.update d).socket_address = p.socket_address := rfl

/-- `applyCheck` never touches the identity key. -/
theorem applyCheck_socket_address (p : Proxy) (st : Nat) (e : ℚ)
    (pl : List (String × String)) :
    (applyCheck p st e pl).socket_address = p.socket_address := by
  unfold applyCheck
  by_cases h : (st == 200) = true
  · by_cases hp : pl.isEmpty = true
    · simp [h, hp]
    · simp [h, hp, Proxy.update]
  · simp [h]

/-- One step of `check_proxy` never introduces a new address: every
surviving element's address was already an element's address before. -/
theorem check_proxy_subset (s : List Proxy) (p : Proxy) (r : ProbeResult) :
    ∀ q ∈ check_proxy s p r, ∃ p' ∈ s, q.socket_address = p'.socket_address := by
  intro q hq
  cases r with
  | failure =>
    exact ⟨q, (List.mem_filter.mp hq).1, rfl⟩
  | response st e pl =>
    simp only [check_proxy, replaceByEq, List.mem_map] at hq
    obtain ⟨q0, hq0, hbranch⟩ := hq
    by_cases h : proxyEq q0 p = true
    · rw [if_pos h] at hbranch
      refine ⟨q0, hq0, ?_⟩
      rw [← hbranch, applyCheck_socket_address]
      simp only [proxyEq, beq_iff_eq] at h
      exact h.symm
    · rw [if_neg h] at hbranch
      exact ⟨q0, hq0, by rw [hbranch]⟩

/-- C9: the check stage only removes or annotates, never adds — every
proxy in a protocol's post-check set carries an address already present
in the post-fetch set, whatever probe outcomes the scheduled candidates
received. -/
theorem check_stage_no_additions (s : List Proxy)
    (steps : List (Proxy × ProbeResult)) :
    ∀ q ∈ check_all s steps, ∃ p ∈ s, q.socket_address = p.socket_address := by
  induction steps generalizing s with
  | nil =>
    intro q hq
    exact ⟨q, hq, rfl⟩
  | cons step rest ih =>
    intro q hq
    obtain ⟨p1, hp1, h1⟩ := ih (check_proxy s step.1 step.2) q hq
    obtain ⟨p2, hp2, h2⟩ := check_proxy_subset s step.1 step.2 p1 hp1
    exact ⟨p2, hp2, h1.trans h2⟩

/-- Witness for C9: one candidate, one successful check. -/
theorem check_stage_no_additions_witness :
    ∃ p ∈ [mkProxy "1.2.3.4:80" "1.2.3.4"],
      (applyCheck (mkProxy "1.2.3.4:80" "1.2.3.4") 200 1
          [("query", "9.9.9.9")]).socket_address = p.socket_address :=
  check_stage_no_additions [mkProxy "1.2.3.4:80" "1.2.3.4"]
    [(mkProxy "1.2.3.4:80" "1.2.3.4",
      ProbeResult.response 200 1 [("query", "9.9.9.9")])]
    (applyCheck (mkProxy "1.2.3.4:80" "1.2.3.4") 200 1 [("query", "9.9.9.9")])
    (by decide)

/-- C1 counterexample: a candidate whose proxied lookup completed with
HTTP status 500 (a non-success status, no exception raised) is still in
the post-check set — it is not removed, contradicting the claimed
permanent exclusion on non-success status. -/
theorem check_nonsuccess_kept_cex :
    (check_proxy [mkProxy "1.2.3.4:80" "1.2.3.4"]
        (mkProxy "1.2.3.4:80" "1.2.3.4")
        (ProbeResult.response 500 1 [])).map Proxy.socket_address
      = ["1.2.3.4:80"] := by
  decide

/-- C1 (amended): removal happens exactly on exceptions — connect error,
timeout, non-decodable body.  On an exception the candidate's address
disappears from the set and every other candidate survives; on a
completed response the set keeps all its addresses, and with a
non-success status the candidate is kept with only its `timeout` set
(metadata untouched). -/
theorem check_failure_drops_response_keeps (s : List Proxy) (p : Proxy)
    (st : Nat) (e : ℚ) (pl : List (String × String)) :
    (∀ q ∈ check_proxy s p ProbeResult.failure,
      ¬ q.socket_address = p.socket_address) ∧
    (∀ q ∈ s, ¬ q.socket_address = p.socket_address →
      q ∈ check_proxy s p ProbeResult.failure) ∧
    ((check_proxy s p (ProbeResult.response st e pl)).map Proxy.socket_address
      = s.map Proxy.socket_address) ∧
    (¬ st = 200 →
      check_proxy s p (ProbeResult.response st e pl)
        = s.map (fun q => if proxyEq q p then { p with timeout := some e }
            else q)) := by
  refine ⟨?_, ?_, ?_, ?_⟩
  · intro q hq
    have h := (List.mem_filter.mp hq).2
    simp only [proxyEq, Bool.not_eq_true', beq_eq_false_iff_ne, ne_eq] at h
    exact h
  · intro q hq hne
    apply List.mem_filter.mpr
    refine ⟨hq, ?_⟩
    simp only [proxyEq, Bool.not_eq_true', beq_eq_false_iff_ne, ne_eq]
    exact hne
  · simp only [check_proxy, replaceByEq, List.map_map]
    apply List.map_congr_left
    intro q _
    by_cases h : proxyEq q p = true
    · simp only [Function.comp_apply, if_pos h, applyCheck_socket_address]
      simp only [proxyEq, beq_iff_eq] at h
      exact h.symm
    · simp [Function.comp_apply, if_neg h]
  · intro hst
    have hd : (st == 200) = false := by
      simpa using hst
    simp [check_proxy, replaceByEq, applyCheck, hd]

/-- Witness for C1's amended theorem at a concrete 500-status check. -/
theorem check_failure_drops_response_keeps_witness :
    check_proxy [mkProxy "1.2.3.4:80" "1.2.3.4"]
        (mkProxy "1.2.3.4:80" "1.2.3.4") (ProbeResult.response 500 1 [])
      = [{ mkProxy "1.2.3.4:80" "1.2.3.4" with timeout := some 1 }] := by
  have h := (check_failure_drops_response_keeps
    [mkProxy "1.2.3.4:80" "1.2.3.4"] (mkProxy "1.2.3.4:80" "1.2.3.4")
    500 1 []).2.2.2 (by decide)
  rw [h]
  decide

/-- C4 counterexample: a check that succeeds with HTTP 200 and a
*decodable but empty* JSON payload (`{}` is falsy in Python, so
`if data:` skips `proxy.update`) leaves `is_anonymous` unset (`None`),
although the claim requires it to be set to a boolean (here `true`,
since the payload reports no observed IP equal to the candidate's own). -/
theorem check_success_empty_payload_cex :
    (check_proxy [mkProxy "10.0.0.1:8080" "10.0.0.1"]
        (mkProxy "10.0.0.1:8080" "10.0.0.1")
        (ProbeResult.response 200 1 [])).map Proxy.is_anonymous
      = [none] := by
  decide

/-- C4 (amended): for a check succeeding with a *non-empty* decodable
payload, `timeout` is set to the elapsed wall time, `geolocation` is
rebuilt from the payload's country/regionName/city fields, and
`is_anonymous` is true exactly when the payload's reported observed IP
(`query`) differs from the candidate's own `ip`; with an *empty*
decodable payload only `timeout` is set.  In particular, the candidate
`10.0.0.1:8080` with payload `{query: "1.2.3.4", country: "US"}` becomes
anonymous with geolocation `|US|?|?`. -/
theorem check_success_updates_metadata (p : Proxy) (e : ℚ)
    (pl : List (String × String)) (hne : ¬ pl = []) :
    (applyCheck p 200 e pl).timeout = some e ∧
    (applyCheck p 200 e pl).geolocation =
      "|" ++ orQ (lookup? pl "country") ++ "|" ++ orQ (lookup? pl "regionName")
          ++ "|" ++ orQ (lookup? pl "city") ∧
    ((applyCheck p 200 e pl).is_anonymous = some true ↔
      ¬ some p.ip = lookup? pl "query") ∧
    applyCheck p 200 e [] = { p with timeout := some e } ∧
    check_proxy [mkProxy "10.0.0.1:8080" "10.0.0.1"]
        (mkProxy "10.0.0.1:8080" "10.0.0.1")
        (ProbeResult.response 200 e [("query", "1.2.3.4"), ("country", "US")])
      = [{ socket_address := "10.0.0.1:8080", ip := "10.0.0.1",
           is_anonymous := some true, geolocation := "|US|?|?",
           timeout := some e }] := by
  have hempty : pl.isEmpty = false := by
    simpa using hne
  refine ⟨?_, ?_, ?_, ?_, ?_⟩
  · simp [applyCheck, hempty, Proxy.update]
  · simp [applyCheck, hempty, Proxy.update]
  · simp [applyCheck, hempty, Proxy.update]
  · simp [applyCheck]
  · simp [check_proxy, replaceByEq, applyCheck, Proxy.update, proxyEq,
      mkProxy, lookup?, orQ]

/-- Witness for C4's amended theorem at the spec's own example. -/
theorem check_success_updates_metadata_witness :
    (applyCheck (mkProxy "10.0.0.1:8080" "10.0.0.1") 200 1
        [("query", "1.2.3.4"), ("country", "US")]).timeout = some 1 ∧
    (applyCheck (mkProxy "10.0.0.1:8080" "10.0.0.1") 200 1
        [("query", "1.2.3.4"), ("country", "US")]).is_anonymous = some true := by
  have h := check_success_updates_metadata (mkProxy "10.0.0.1:8080" "10.0.0.1")
    1 [("query", "1.2.3.4"), ("country", "US")] (by decide)
  exact ⟨h.1, h.2.2.1.mpr (by decide)⟩

/-- One filesystem effect of `save_proxies`, in program order. -/
inductive FsOp where
  | removeDir (path : String)
  | createDir (path : String)
  | writeFile (path : String) (content : String)
deriving DecidableEq, Repr

/-- One output line: the socket address, with the geolocation suffix
appended when the folder requires it. -/
def folderLine (f : Folder) (p : Proxy) : String :=
  if f.for_geolocation then p.socket_address ++ p.geolocation
  else p.socket_address

/-- The text written for one protocol into one folder: the sorted
proxies, restricted to anonymous ones when the folder requires it
(`proxy.is_anonymous` is truthy only when it is `True`), one per line. -/
def folderText (f : Folder) (ps : List Proxy) : String :=
  String.intercalate "\n"
    ((ps.filter (fun p =>
        if f.for_anonymous then p.is_anonymous == some true else true)).map
      (folderLine f))

/-- `ProxyScraperChecker.save_proxies` as its trace of filesystem
effects: first `folder.remove()` for every folder in `all_folders`,
then, per enabled folder, `folder.create()` followed by one file write
per protocol. -/
def save_proxies_ops (c : Checker) (proxies : List (String × List Proxy)) :
    List FsOp :=
  let sorted := sorted_proxies c.sort_by_speed proxies
  (c.all_folders.map (fun f => FsOp.removeDir f.path))
  ++ (c.enabled_folders.map (fun f =>
        FsOp.createDir f.path ::
          sorted.map (fun pp =>
            FsOp.writeFile (f.path ++ "/" ++ pp.1 ++ ".txt")
              (folderText f pp.2)))).flatten

/-- C5 counterexample: with the `proxies_anonymous` category disabled
(and hence absent from `enabled_folders`), `save_proxies` still removes
its directory — `Folder.remove` runs over `all_folders`, enabled or not. -/
theorem disabled_folder_removed_cex :
    ∃ c, ProxyScraperChecker.make
        { timeout := 10, max_connections := 900, sort_by_speed := true,
          save_path := "out", proxies := true, proxies_anonymous := false,
          proxies_geolocation := true, proxies_geolocation_anonymous := true,
          http_sources := none, socks4_sources := none,
          socks5_sources := none }
      = Except.ok c ∧
    FsOp.removeDir "out/proxies_anonymous" ∈ save_proxies_ops c [] ∧
    (∀ f ∈ c.enabled_folders, ¬ f.path = "out/proxies_anonymous") := by
  refine ⟨_, rfl, ?_, ?_⟩ <;> decide

/-- C5 (amended): `save_proxies` removes the directory of *every*
category folder, disabled ones included, and creates directories only
for the enabled ones (every `createDir` in the trace belongs to an
enabled folder; every `removeDir` belongs to some category folder). -/
theorem folder_ops_partition (c : Checker)
    (proxies : List (String × List Proxy)) :
    (∀ f ∈ c.all_folders, FsOp.removeDir f.path ∈ save_proxies_ops c proxies) ∧
    (∀ pth, FsOp.createDir pth ∈ save_proxies_ops c proxies →
      ∃ f ∈ c.enabled_folders, pth = f.path) ∧
    (∀ pth, FsOp.removeDir pth ∈ save_proxies_ops c proxies →
      ∃ f ∈ c.all_folders, pth = f.path) := by
  refine ⟨?_, ?_, ?_⟩
  · intro f hf
    simp only [save_proxies_ops, List.mem_append, List.mem_map]
    exact Or.inl ⟨f, hf, rfl⟩
  · intro pth hmem
    simp only [save_proxies_ops, List.mem_append, List.mem_map,
      List.mem_flatten] at hmem
    rcases hmem with ⟨f, _, hcontra⟩ | ⟨sub, ⟨f, hf, hsub⟩, hin⟩
    · exact absurd hcontra (by simp)
    · rw [← hsub] at hin
      rcases List.mem_cons.mp hin with hhead | htail
      · exact ⟨f, hf, (FsOp.createDir.injEq _ _).mp hhead⟩
      · simp only [List.mem_map] at htail
        obtain ⟨pp, _, hcontra⟩ := htail
        exact absurd hcontra (by simp)
  · intro pth hmem
    simp only [save_proxies_ops, List.mem_append, List.mem_map,
      List.mem_flatten] at hmem
    rcases hmem with ⟨f, hf, hcontra⟩ | ⟨sub, ⟨f, hf, hsub⟩, hin⟩
    · exact ⟨f, hf, (FsOp.removeDir.injEq _ _).mp hcontra.symm⟩
    · rw [← hsub] at hin
      rcases List.mem_cons.mp hin with hhead | htail
      · exact absurd hhead (by simp)
      · simp only [List.mem_map] at htail
        obtain ⟨pp, _, hcontra⟩ := htail
        exact absurd hcontra (by simp)

/-- Witness for C5's amended theorem on a one-folder checker. -/
theorem folder_ops_partition_witness :
    FsOp.removeDir (mkFolder "out" "proxies").path ∈
      save_proxies_ops
        { path := "out", all_folders := [mkFolder "out" "proxies"],
          enabled_folders := [mkFolder "out" "proxies"],
          sort_by_speed := true, timeout := 10, max_connections := 900,
          sources := [] } [] :=
  (folder_ops_partition
    { path := "out", all_folders := [mkFolder "out" "proxies"],
      enabled_folders := [mkFolder "out" "proxies"],
      sort_by_speed := true, timeout := 10, max_connections := 900,
      sources := [] } []).1 (mkFolder "out" "proxies") (List.mem_singleton.mpr rfl)

/-! ## The extraction regex

`ProxyScraperChecker.__init__` compiles
`(?:^|\D)?((O1\.O\.O\.O):P)(?:\D|$)` where `O1` is the alternation
`[1-9]|[1-9]\d|1\d{2}|2[0-4]\d|25[0-5]`, `O` is
`\d|[1-9]\d|1\d{2}|2[0-4]\d|25[0-5]` and `P` is
`\d|[1-9]\d{1,3}|[1-5]\d{4}|6[0-4]\d{3}|65[0-4]\d{2}|655[0-2]\d|6553[0-5]`,
and `fetch_source` runs `finditer` over the response text, taking
`group(1)` (the `ip:port`) and `group(2)` (the `ip`).

The matcher below hand-compiles this concrete pattern with CPython `re`
semantics: ordered alternation with backtracking into the continuation,
the greedy bounded quantifier `\d{1,3}` expanded longest-first, leftmost
scanning, and resumption at each match's end.  Character classes are
represented as inclusive ranges of code points (`\d` as the ASCII digits
`48`–`57`, which is exact for all the bracketed classes; the Unicode
digits CPython additionally counts in `\d`/`\D` are outside the octet
and port classes and are not modelled). -/

/-- Inclusive code-point range test for one character class. -/
def inRng (r : Nat × Nat) (c : Char) : Bool :=
  r.1 ≤ c.toNat && c.toNat ≤ r.2

/-- The class `\d` (`0`–`9`). -/
def digitRng : Nat × Nat := (48, 57)

/-- Consume exactly one character per class, in order. -/
def takeClasses : List (Nat × Nat) → List Char → Option (List Char × List Char)
  | [], s => some ([], s)
  | _ :: _, [] => none
  | r :: rs, c :: s =>
    if inRng r c then
      (takeClasses rs s).map (fun cr => (c :: cr.1, cr.2))
    else none

/-- `[1-9]|[1-9]\d|1\d{2}|2[0-4]\d|25[0-5]` — the first octet (1–255),
alternatives in source order, each as its list of character classes. -/
def oct1Alts : List (List (Nat × Nat)) :=
  [[(49, 57)],
   [(49, 57), digitRng],
   [(49, 49), digitRng, digitRng],
   [(50, 50), (48, 52), digitRng],
   [(50, 50), (53, 53), (48, 53)]]

/-- `\d|[1-9]\d|1\d{2}|2[0-4]\d|25[0-5]` — octets two to four (0–255). -/
def octAlts : List (List (Nat × Nat)) :=
  [[digitRng],
   [(49, 57), digitRng],
   [(49, 49), digitRng, digitRng],
   [(50, 50), (48, 52), digitRng],
   [(50, 50), (53, 53), (48, 53)]]

/-- `\d|[1-9]\d{1,3}|[1-5]\d{4}|6[0-4]\d{3}|65[0-4]\d{2}|655[0-2]\d|6553[0-5]`
— the port (0–65535).  The greedy `[1-9]\d{1,3}` is expanded
longest-first (three, two, then one trailing digit), which is exactly
CPython's backtracking order for the bounded quantifier. -/
def portAlts : List (List (Nat × Nat)) :=
  [[digitRng],
   [(49, 57), digitRng, digitRng, digitRng],
   [(49, 57), digitRng, digitRng],
   [(49, 57), digitRng],
   [(49, 53), digitRng, digitRng, digitRng, digitRng],
   [(54, 54), (48, 52), digitRng, digitRng, digitRng],
   [(54, 54), (53, 53), (48, 52), digitRng, digitRng],
   [(54, 54), (53, 53), (53, 53), (48, 50), digitRng],
   [(54, 54), (53, 53), (53, 53), (51, 51), (48, 53)]]

/-- Ordered alternation with full backtracking: try each alternative in
order; for a consuming alternative, run the continuation `k` on the
consumed characters and the rest, falling through to the next
alternative when the continuation fails. -/
def tryAlts (alts : List (List (Nat × Nat))) (s : List Char)
    (k : List Char → List Char → Option α) : Option α :=
  match alts with
  | [] => none
  | a :: as =>
    match takeClasses a s with
    | some (cs, r) =>
      match k cs r with
      | some v => some v
      | none => tryAlts as s k
    | none => tryAlts as s k

/-- Consume one literal character. -/
def lit (c : Char) (s : List Char) : Option (List Char) :=
  match s with
  | [] => none
  | c' :: r => if c' = c then some r else none

/-- The trailing `(?:\D|$)`: consume one non-digit character, or succeed
consuming nothing at the end of the input.  Returns the number of
characters consumed. -/
def tailMatch (s : List Char) : Option Nat :=
  match s with
  | [] => some 0
  | c :: _ => if inRng digitRng c then none else some 1

/-- One match of the pattern: the five digit groups, plus the number of
characters the trailing `(?:\D|$)` consumed. -/
structure RawMatch where
  o1 : List Char
  o2 : List Char
  o3 : List Char
  o4 : List Char
  port : List Char
  trail : Nat
deriving DecidableEq, Repr

/-- Characters consumed by the match from the first octet on: the five
groups, the three dots, the colon, and the trailing context character. -/
def RawMatch.spanLen (m : RawMatch) : Nat :=
  m.o1.length + m.o2.length + m.o3.length + m.o4.length
    + m.port.length + 4 + m.trail

/-- Match `(O1\.O\.O\.O):P(?:\D|$)` at the head of `s`, with full
backtracking across all components. -/
def coreMatch (s : List Char) : Option RawMatch :=
  tryAlts oct1Alts s fun o1 r1 =>
  (lit '.' r1).bind fun r2 =>
  tryAlts octAlts r2 fun o2 r3 =>
  (lit '.' r3).bind fun r4 =>
  tryAlts octAlts r4 fun o3 r5 =>
  (lit '.' r5).bind fun r6 =>
  tryAlts octAlts r6 fun o4 r7 =>
  (lit ':' r7).bind fun r8 =>
  tryAlts portAlts r8 fun pt r9 =>
  (tailMatch r9).map fun tr => ⟨o1, o2, o3, o4, pt, tr⟩

/-- The candidate consumptions of the leading `(?:^|\D)?`, in CPython
trial order: the `^` branch (empty, only at the start of the text), then
the `\D` branch (one non-digit character), then the empty skip allowed
by `?`.  Each candidate is (characters consumed, rest). -/
def leadCands (atStart : Bool) (s : List Char) : List (Nat × List Char) :=
  (if atStart then [(0, s)] else [])
    ++ (match s with
        | [] => []
        | c :: r => if inRng digitRng c then [] else [(1, r)])
    ++ [(0, s)]

/-- Try candidates in order, returning the first success. -/
def firstSome : List α → (α → Option β) → Option β
  | [], _ => none
  | a :: as, f =>
    match f a with
    | some b => some b
    | none => firstSome as f

/-- Attempt the whole pattern at the current position; on success return
the characters consumed by the leading group and the match. -/
def attemptAt (atStart : Bool) (s : List Char) : Option (Nat × RawMatch) :=
  firstSome (leadCands atStart s)
    (fun lc => (coreMatch lc.2).map (fun m => (lc.1, m)))

/-- The `finditer` scan: try each position left to right; on a match,
record it and resume at the match's end. -/
def scanAux : Nat → Bool → List Char → List RawMatch
  | 0, _, _ => []
  | fuel + 1, atStart, s =>
    match attemptAt atStart s with
    | some (lead, m) => m :: scanAux fuel false (s.drop (lead + m.spanLen))
    | none =>
      match s with
      | [] => []
      | _ :: t => scanAux fuel false t

/-- `self.regex.finditer(text)`. -/
def finditer (s : List Char) : List RawMatch :=
  scanAux (s.length + 1) true s

/-- `group(2)` of a match: the dotted host, `o1.o2.o3.o4`. -/
def group2Chars (m : RawMatch) : List Char :=
  m.o1 ++ '.' :: m.o2 ++ '.' :: m.o3 ++ '.' :: m.o4

/-- `group(1)` of a match: the full `ip:port`. -/
def group1Chars (m : RawMatch) : List Char :=
  group2Chars m ++ ':' :: m.port

/-- The Pattern Extractor: the `(group(1), group(2))` pairs `fetch_source`
builds `Proxy` objects from, in match order. -/
def extractPairs (text : String) : List (String × String) :=
  (finditer text.toList).map
    (fun m => (String.mk (group1Chars m), String.mk (group2Chars m)))

/-! ### Structural facts about the matcher -/

theorem takeClasses_nil {s cs rst : List Char}
    (h : takeClasses [] s = some (cs, rst)) : cs = [] ∧ rst = s := by
  simp only [takeClasses, Option.some.injEq, Prod.mk.injEq] at h
  exact ⟨h.1.symm, h.2.symm⟩

theorem takeClasses_cons {rg : Nat × Nat} {rgs : List (Nat × Nat)}
    {s cs rst : List Char}
    (h : takeClasses (rg :: rgs) s = some (cs, rst)) :
    ∃ c s' cs', s = c :: s' ∧ inRng rg c = true ∧
      takeClasses rgs s' = some (cs', rst) ∧ cs = c :: cs' := by
  cases s with
  | nil => simp [takeClasses] at h
  | cons c s' =>
    simp only [takeClasses] at h
    by_cases hc : inRng rg c = true
    · rw [if_pos hc] at h
      obtain ⟨p, hts, heq⟩ := Option.map_eq_some'.mp h
      obtain ⟨cs', r'⟩ := p
      simp only [Prod.mk.injEq] at heq
      refine ⟨c, s', cs', rfl, hc, ?_, heq.1.symm⟩
      rw [← heq.2]
      exact hts
    · rw [if_neg hc] at h
      exact absurd h (by simp)

theorem tryAlts_eq_some {α : Type} {alts : List (List (Nat × Nat))}
    {s : List Char} {k : List Char → List Char → Option α} {v : α}
    (h : tryAlts alts s k = some v) :
    ∃ a ∈ alts, ∃ cs rst, takeClasses a s = some (cs, rst) ∧ k cs rst = some v := by
  induction alts with
  | nil => simp [tryAlts] at h
  | cons a as ih =>
    simp only [tryAlts] at h
    cases hta : takeClasses a s with
    | none =>
      rw [hta] at h
      obtain ⟨b, hb, w⟩ := ih h
      exact ⟨b, List.mem_cons_of_mem _ hb, w⟩
    | some p =>
      obtain ⟨cs, rst⟩ := p
      rw [hta] at h
      have h' : (match k cs rst with
          | some w' => some w'
          | none => tryAlts as s k) = some v := h
      cases hk : k cs rst with
      | some w =>
        rw [hk] at h'
        obtain rfl : w = v := (Option.some.injEq _ _).mp h'
        exact ⟨a, List.mem_cons_self _ _, cs, rst, hta, hk⟩
      | none =>
        rw [hk] at h'
        obtain ⟨b, hb, w⟩ := ih h'
        exact ⟨b, List.mem_cons_of_mem _ hb, w⟩

theorem firstSome_eq_some {α β : Type} {l : List α} {f : α → Option β} {b : β}
    (h : firstSome l f = some b) : ∃ a ∈ l, f a = some b := by
  induction l with
  | nil => simp [firstSome] at h
  | cons a as ih =>
    simp only [firstSome] at h
    cases hf : f a with
    | some w =>
      rw [hf] at h
      obtain rfl : w = b := (Option.some.injEq _ _).mp h
      exact ⟨a, List.mem_cons_self _ _, hf⟩
    | none =>
      rw [hf] at h
      obtain ⟨a', ha', w⟩ := ih h
      exact ⟨a', List.mem_cons_of_mem _ ha', w⟩

theorem inRng_iff {lo hi : Nat} {c : Char} :
    inRng (lo, hi) c = true ↔ lo ≤ c.toNat ∧ c.toNat ≤ hi := by
  simp [inRng]

/-! ### Value bounds forced by the alternation lists -/

/-- A digit group an octet position can produce: non-empty, value at
most 255, and no leading zero when longer than one digit. -/
def GoodOct (cs : List Char) : Prop :=
  ¬ cs = [] ∧ digitsVal cs ≤ 255 ∧ (2 ≤ cs.length → ¬ cs.head? = some '0')

/-- The first octet additionally has value at least 1 and never starts
with the digit zero. -/
def GoodOct1 (cs : List Char) : Prop :=
  GoodOct cs ∧ 1 ≤ digitsVal cs ∧ ¬ cs.head? = some '0'

/-- A digit group the port position can produce. -/
def GoodPort (cs : List Char) : Prop :=
  ¬ cs = [] ∧ digitsVal cs ≤ 65535 ∧ (2 ≤ cs.length → ¬ cs.head? = some '0')

theorem head_ne_zero_of_ge {c : Char} (h : 49 ≤ c.toNat) : ¬ c = '0' := by
  intro hc
  rw [hc] at h
  exact absurd h (by decide)

/-- Every consumption an `octAlts` alternative can make is a valid
0–255 octet group. -/
theorem octAlts_good {a : List (Nat × Nat)} {s cs rst : List Char}
    (ha : a ∈ octAlts) (h : takeClasses a s = some (cs, rst)) : GoodOct cs := by
  fin_cases ha
  · obtain ⟨c1, s1, cs1, rfl, h1, ht1, rfl⟩ := takeClasses_cons h
    obtain ⟨rfl, rfl⟩ := takeClasses_nil ht1
    simp only [inRng_iff, digitRng] at h1
    refine ⟨by simp, ?_, by simp⟩
    simp only [digitsVal, List.foldl_cons, List.foldl_nil]
    omega
  · obtain ⟨c1, s1, cs1, rfl, h1, ht1, rfl⟩ := takeClasses_cons h
    obtain ⟨c2, s2, cs2, rfl, h2, ht2, rfl⟩ := takeClasses_cons ht1
    obtain ⟨rfl, rfl⟩ := takeClasses_nil ht2
    simp only [inRng_iff, digitRng] at h1 h2
    refine ⟨by simp, ?_, ?_⟩
    · simp only [digitsVal, List.foldl_cons, List.foldl_nil]
      omega
    · intro _
      simp only [List.head?, Option.some.injEq]
      exact head_ne_zero_of_ge (by omega)
  · obtain ⟨c1, s1, cs1, rfl, h1, ht1, rfl⟩ := takeClasses_cons h
    obtain ⟨c2, s2, cs2, rfl, h2, ht2, rfl⟩ := takeClasses_cons ht1
    obtain ⟨c3, s3, cs3, rfl, h3, ht3, rfl⟩ := takeClasses_cons ht2
    obtain ⟨rfl, rfl⟩ := takeClasses_nil ht3
    simp only [inRng_iff, digitRng] at h1 h2 h3
    refine ⟨by simp, ?_, ?_⟩
    · simp only [digitsVal, List.foldl_cons, List.foldl_nil]
      omega
    · intro _
      simp only [List.head?, Option.some.injEq]
      exact head_ne_zero_of_ge (by omega)
  · obtain ⟨c1, s1, cs1, rfl, h1, ht1, rfl⟩ := takeClasses_cons h
    obtain ⟨c2, s2, cs2, rfl, h2, ht2, rfl⟩ := takeClasses_cons ht1
    obtain ⟨c3, s3, cs3, rfl, h3, ht3, rfl⟩ := takeClasses_cons ht2
    obtain ⟨rfl, rfl⟩ := takeClasses_nil ht3
    simp only [inRng_iff, digitRng] at h1 h2 h3
    refine ⟨by simp, ?_, ?_⟩
    · simp only [digitsVal, List.foldl_cons, List.foldl_nil]
      omega
    · intro _
      simp only [List.head?, Option.some.injEq]
      exact head_ne_zero_of_ge (by omega)
  · obtain ⟨c1, s1, cs1, rfl, h1, ht1, rfl⟩ := takeClasses_cons h
    obtain ⟨c2, s2, cs2, rfl, h2, ht2, rfl⟩ := takeClasses_cons ht1
    obtain ⟨c3, s3, cs3, rfl, h3, ht3, rfl⟩ := takeClasses_cons ht2
    obtain ⟨rfl, rfl⟩ := takeClasses_nil ht3
    simp only [inRng_iff, digitRng] at h1 h2 h3
    refine ⟨by simp, ?_, ?_⟩
    · simp only [digitsVal, List.foldl_cons, List.foldl_nil]
      omega
    · intro _
      simp only [List.head?, Option.some.injEq]
      exact head_ne_zero_of_ge (by omega)

/-- Every consumption an `oct1Alts` alternative can make is a valid
1–255 first-octet group. -/
theorem oct1Alts_good {a : List (Nat × Nat)} {s cs rst : List Char}
    (ha : a ∈ oct1Alts) (h : takeClasses a s = some (cs, rst)) : GoodOct1 cs := by
  fin_cases ha
  · obtain ⟨c1, s1, cs1, rfl, h1, ht1, rfl⟩ := takeClasses_cons h
    obtain ⟨rfl, rfl⟩ := takeClasses_nil ht1
    simp only [inRng_iff, digitRng] at h1
    refine ⟨⟨by simp, ?_, by simp⟩, ?_, ?_⟩
    · simp only [digitsVal, List.foldl_cons, List.foldl_nil]
      omega
    · simp only [digitsVal, List.foldl_cons, List.foldl_nil]
      omega
    · simp only [List.head?, Option.some.injEq]
      exact head_ne_zero_of_ge (by omega)
  · obtain ⟨c1, s1, cs1, rfl, h1, ht1, rfl⟩ := takeClasses_cons h
    obtain ⟨c2, s2, cs2, rfl, h2, ht2, rfl⟩ := takeClasses_cons ht1
    obtain ⟨rfl, rfl⟩ := takeClasses_nil ht2
    simp only [inRng_iff, digitRng] at h1 h2
    refine ⟨⟨by simp, ?_, ?_⟩, ?_, ?_⟩
    · simp only [digitsVal, List.foldl_cons, List.foldl_nil]
      omega
    · intro _
      simp only [List.head?, Option.some.injEq]
      exact head_ne_zero_of_ge (by omega)
    · simp only [digitsVal, List.foldl_cons, List.foldl_nil]
      omega
    · simp only [List.head?, Option.some.injEq]
      exact head_ne_zero_of_ge (by omega)
  · obtain ⟨c1, s1, cs1, rfl, h1, ht1, rfl⟩ := takeClasses_cons h
    obtain ⟨c2, s2, cs2, rfl, h2, ht2, rfl⟩ := takeClasses_cons ht1
    obtain ⟨c3, s3, cs3, rfl, h3, ht3, rfl⟩ := takeClasses_cons ht2
    obtain ⟨rfl, rfl⟩ := takeClasses_nil ht3
    simp only [inRng_iff, digitRng] at h1 h2 h3
    refine ⟨⟨by simp, ?_, ?_⟩, ?_, ?_⟩
    · simp only [digitsVal, List.foldl_cons, List.foldl_nil]
      omega
    · intro _
      simp only [List.head?, Option.some.injEq]
      exact head_ne_zero_of_ge (by omega)
    · simp only [digitsVal, List.foldl_cons, List.foldl_nil]
      omega
    · simp only [List.head?, Option.some.injEq]
      exact head_ne_zero_of_ge (by omega)
  · obtain ⟨c1, s1, cs1, rfl, h1, ht1, rfl⟩ := takeClasses_cons h
    obtain ⟨c2, s2, cs2, rfl, h2, ht2, rfl⟩ := takeClasses_cons ht1
    obtain ⟨c3, s3, cs3, rfl, h3, ht3, rfl⟩ := takeClasses_cons ht2
    obtain ⟨rfl, rfl⟩ := takeClasses_nil ht3
    simp only [inRng_iff, digitRng] at h1 h2 h3
    refine ⟨⟨by simp, ?_, ?_⟩, ?_, ?_⟩
    · simp only [digitsVal, List.foldl_cons, List.foldl_nil]
      omega
    · intro _
      simp only [List.head?, Option.some.injEq]
      exact head_ne_zero_of_ge (by omega)
    · simp only [digitsVal, List.foldl_cons, List.foldl_nil]
      omega
    · simp only [List.head?, Option.some.injEq]
      exact head_ne_zero_of_ge (by omega)
  · obtain ⟨c1, s1, cs1, rfl, h1, ht1, rfl⟩ := takeClasses_cons h
    obtain ⟨c2, s2, cs2, rfl, h2, ht2, rfl⟩ := takeClasses_cons ht1
    obtain ⟨c3, s3, cs3, rfl, h3, ht3, rfl⟩ := takeClasses_cons ht2
    obtain ⟨rfl, rfl⟩ := takeClasses_nil ht3
    simp only [inRng_iff, digitRng] at h1 h2 h3
    refine ⟨⟨by simp, ?_, ?_⟩, ?_, ?_⟩
    · simp only [digitsVal, List.foldl_cons, List.foldl_nil]
      omega
    · intro _
      simp only [List.head?, Option.some.injEq]
      exact head_ne_zero_of_ge (by omega)
    · simp only [digitsVal, List.foldl_cons, List.foldl_nil]
      omega
    · simp only [List.head?, Option.some.injEq]
      exact head_ne_zero_of_ge (by omega)

/-- Every consumption a `portAlts` alternative can make is a valid
0–65535 port group. -/
theorem portAlts_good {a : List (Nat × Nat)} {s cs rst : List Char}
    (ha : a ∈ portAlts) (h : takeClasses a s = some (cs, rst)) : GoodPort cs := by
  fin_cases ha
  · obtain ⟨c1, s1, cs1, rfl, h1, ht1, rfl⟩ := takeClasses_cons h
    obtain ⟨rfl, rfl⟩ := takeClasses_nil ht1
    simp only [inRng_iff, digitRng] at h1
    refine ⟨by simp, ?_, by simp⟩
    simp only [digitsVal, List.foldl_cons, List.foldl_nil]
    omega
  · obtain ⟨c1, s1, cs1, rfl, h1, ht1, rfl⟩ := takeClasses_cons h
    obtain ⟨c2, s2, cs2, rfl, h2, ht2, rfl⟩ := takeClasses_cons ht1
    obtain ⟨c3, s3, cs3, rfl, h3, ht3, rfl⟩ := takeClasses_cons ht2
    obtain ⟨c4, s4, cs4, rfl, h4, ht4, rfl⟩ := takeClasses_cons ht3
    obtain ⟨rfl, rfl⟩ := takeClasses_nil ht4
    simp only [inRng_iff, digitRng] at h1 h2 h3 h4
    refine ⟨by simp, ?_, ?_⟩
    · simp only [digitsVal, List.foldl_cons, List.foldl_nil]
      omega
    · intro _
      simp only [List.head?, Option.some.injEq]
      exact head_ne_zero_of_ge (by omega)
  · obtain ⟨c1, s1, cs1, rfl, h1, ht1, rfl⟩ := takeClasses_cons h
    obtain ⟨c2, s2, cs2, rfl, h2, ht2, rfl⟩ := takeClasses_cons ht1
    obtain ⟨c3, s3, cs3, rfl, h3, ht3, rfl⟩ := takeClasses_cons ht2
    obtain ⟨rfl, rfl⟩ := takeClasses_nil ht3
    simp only [inRng_iff, digitRng] at h1 h2 h3
    refine ⟨by simp, ?_, ?_⟩
    · simp only [digitsVal, List.foldl_cons, List.foldl_nil]
      omega
    · intro _
      simp only [List.head?, Option.some.injEq]
      exact head_ne_zero_of_ge (by omega)
  · obtain ⟨c1, s1, cs1, rfl, h1, ht1, rfl⟩ := takeClasses_cons h
    obtain ⟨c2, s2, cs2, rfl, h2, ht2, rfl⟩ := takeClasses_cons ht1
    obtain ⟨rfl, rfl⟩ := takeClasses_nil ht2
    simp only [inRng_iff, digitRng] at h1 h2
    refine ⟨by simp, ?_, ?_⟩
    · simp only [digitsVal, List.foldl_cons, List.foldl_nil]
      omega
    · intro _
      simp only [List.head?, Option.some.injEq]
      exact head_ne_zero_of_ge (by omega)
  · obtain ⟨c1, s1, cs1, rfl, h1, ht1, rfl⟩ := takeClasses_cons h
    obtain ⟨c2, s2, cs2, rfl, h2, ht2, rfl⟩ := takeClasses_cons ht1
    obtain ⟨c3, s3, cs3, rfl, h3, ht3, rfl⟩ := takeClasses_cons ht2
    obtain ⟨c4, s4, cs4, rfl, h4, ht4, rfl⟩ := takeClasses_cons ht3
    obtain ⟨c5, s5, cs5, rfl, h5, ht5, rfl⟩ := takeClasses_cons ht4
    obtain ⟨rfl, rfl⟩ := takeClasses_nil ht5
    simp only [inRng_iff, digitRng] at h1 h2 h3 h4 h5
    refine ⟨by simp, ?_, ?_⟩
    · simp only [digitsVal, List.foldl_cons, List.foldl_nil]
      omega
    · intro _
      simp only [List.head?, Option.some.injEq]
      exact head_ne_zero_of_ge (by omega)
  · obtain ⟨c1, s1, cs1, rfl, h1, ht1, rfl⟩ := takeClasses_cons h
    obtain ⟨c2, s2, cs2, rfl, h2, ht2, rfl⟩ := takeClasses_cons ht1
    obtain ⟨c3, s3, cs3, rfl, h3, ht3, rfl⟩ := takeClasses_cons ht2
    obtain ⟨c4, s4, cs4, rfl, h4, ht4, rfl⟩ := takeClasses_cons ht3
    obtain ⟨c5, s5, cs5, rfl, h5, ht5, rfl⟩ := takeClasses_cons ht4
    obtain ⟨rfl, rfl⟩ := takeClasses_nil ht5
    simp only [inRng_iff, digitRng] at h1 h2 h3 h4 h5
    refine ⟨by simp, ?_, ?_⟩
    · simp only [digitsVal, List.foldl_cons, List.foldl_nil]
      omega
    · intro _
      simp only [List.head?, Option.some.injEq]
      exact head_ne_zero_of_ge (by omega)
  · obtain ⟨c1, s1, cs1, rfl, h1, ht1, rfl⟩ := takeClasses_cons h
    obtain ⟨c2, s2, cs2, rfl, h2, ht2, rfl⟩ := takeClasses_cons ht1
    obtain ⟨c3, s3, cs3, rfl, h3, ht3, rfl⟩ := takeClasses_cons ht2
    obtain ⟨c4, s4, cs4, rfl, h4, ht4, rfl⟩ := takeClasses_cons ht3
    obtain ⟨c5, s5, cs5, rfl, h5, ht5, rfl⟩ := takeClasses_cons ht4
    obtain ⟨rfl, rfl⟩ := takeClasses_nil ht5
    simp only [inRng_iff, digitRng] at h1 h2 h3 h4 h5
    refine ⟨by simp, ?_, ?_⟩
    · simp only [digitsVal, List.foldl_cons, List.foldl_nil]
      omega
    · intro _
      simp only [List.head?, Option.some.injEq]
      exact head_ne_zero_of_ge (by omega)
  · obtain ⟨c1, s1, cs1, rfl, h1, ht1, rfl⟩ := takeClasses_cons h
    obtain ⟨c2, s2, cs2, rfl, h2, ht2, rfl⟩ := takeClasses_cons ht1
    obtain ⟨c3, s3, cs3, rfl, h3, ht3, rfl⟩ := takeClasses_cons ht2
    obtain ⟨c4, s4, cs4, rfl, h4, ht4, rfl⟩ := takeClasses_cons ht3
    obtain ⟨c5, s5, cs5, rfl, h5, ht5, rfl⟩ := takeClasses_cons ht4
    obtain ⟨rfl, rfl⟩ := takeClasses_nil ht5
    simp only [inRng_iff, digitRng] at h1 h2 h3 h4 h5
    refine ⟨by simp, ?_, ?_⟩
    · simp only [digitsVal, List.foldl_cons, List.foldl_nil]
      omega
    · intro _
      simp only [List.head?, Option.some.injEq]
      exact head_ne_zero_of_ge (by omega)
  · obtain ⟨c1, s1, cs1, rfl, h1, ht1, rfl⟩ := takeClasses_cons h
    obtain ⟨c2, s2, cs2, rfl, h2, ht2, rfl⟩ := takeClasses_cons ht1
    obtain ⟨c3, s3, cs3, rfl, h3, ht3, rfl⟩ := takeClasses_cons ht2
    obtain ⟨c4, s4, cs4, rfl, h4, ht4, rfl⟩ := takeClasses_cons ht3
    obtain ⟨c5, s5, cs5, rfl, h5, ht5, rfl⟩ := takeClasses_cons ht4
    obtain ⟨rfl, rfl⟩ := takeClasses_nil ht5
    simp only [inRng_iff, digitRng] at h1 h2 h3 h4 h5
    refine ⟨by simp, ?_, ?_⟩
    · simp only [digitsVal, List.foldl_cons, List.foldl_nil]
      omega
    · intro _
      simp only [List.head?, Option.some.injEq]
      exact head_ne_zero_of_ge (by omega)

/-- Any successful core match took each digit group from the
corresponding alternation list. -/
theorem coreMatch_groups {s : List Char} {m : RawMatch}
    (h : coreMatch s = some m) :
    GoodOct1 m.o1 ∧ GoodOct m.o2 ∧ GoodOct m.o3 ∧ GoodOct m.o4 ∧
      GoodPort m.port := by
  unfold coreMatch at h
  obtain ⟨a1, ha1, o1, r1, ht1, hk1⟩ := tryAlts_eq_some h
  obtain ⟨r2, hl2, hk2⟩ := Option.bind_eq_some.mp hk1
  obtain ⟨a2, ha2, o2, r3, ht2, hk3⟩ := tryAlts_eq_some hk2
  obtain ⟨r4, hl4, hk4⟩ := Option.bind_eq_some.mp hk3
  obtain ⟨a3, ha3, o3, r5, ht3, hk5⟩ := tryAlts_eq_some hk4
  obtain ⟨r6, hl6, hk6⟩ := Option.bind_eq_some.mp hk5
  obtain ⟨a4, ha4, o4, r7, ht4, hk7⟩ := tryAlts_eq_some hk6
  obtain ⟨r8, hl8, hk8⟩ := Option.bind_eq_some.mp hk7
  obtain ⟨a5, ha5, pt, r9, ht5, hk9⟩ := tryAlts_eq_some hk8
  obtain ⟨tr, htr, hm⟩ := Option.map_eq_some'.mp hk9
  subst hm
  exact ⟨oct1Alts_good ha1 ht1, octAlts_good ha2 ht2, octAlts_good ha3 ht3,
    octAlts_good ha4 ht4, portAlts_good ha5 ht5⟩

/-- Lift to a whole position attempt (the leading group adds nothing to
the digit groups). -/
theorem attemptAt_groups {atStart : Bool} {s : List Char} {lead : Nat}
    {m : RawMatch} (h : attemptAt atStart s = some (lead, m)) :
    GoodOct1 m.o1 ∧ GoodOct m.o2 ∧ GoodOct m.o3 ∧ GoodOct m.o4 ∧
      GoodPort m.port := by
  unfold attemptAt at h
  obtain ⟨lc, _, hlc⟩ := firstSome_eq_some h
  obtain ⟨m', hcm, heq⟩ := Option.map_eq_some'.mp hlc
  have hm : m' = m := congrArg Prod.snd heq
  subst hm
  exact coreMatch_groups hcm

/-- Every match the scan reports came from a successful attempt. -/
theorem scanAux_attempt {fuel : Nat} {atStart : Bool} {s : List Char}
    {m : RawMatch} (h : m ∈ scanAux fuel atStart s) :
    ∃ st' s' lead, attemptAt st' s' = some (lead, m) := by
  induction fuel generalizing atStart s with
  | zero => simp [scanAux] at h
  | succ fuel ih =>
    cases hat : attemptAt atStart s with
    | some lm =>
      obtain ⟨lead, m0⟩ := lm
      simp only [scanAux, hat] at h
      rcases List.mem_cons.mp h with rfl | htail
      · exact ⟨atStart, s, lead, hat⟩
      · exact ih htail
    | none =>
      simp only [scanAux, hat] at h
      cases s with
      | nil => simp at h
      | cons c t => exact ih h

/-- Every match `finditer` yields has its digit groups produced by the
alternation lists. -/
theorem finditer_groups {text : List Char} {m : RawMatch}
    (h : m ∈ finditer text) :
    GoodOct1 m.o1 ∧ GoodOct m.o2 ∧ GoodOct m.o3 ∧ GoodOct m.o4 ∧
      GoodPort m.port := by
  obtain ⟨st', s', lead, hat⟩ := scanAux_attempt h
  exact attemptAt_groups hat

/-- A digit group has no leading zero: if it is at least two digits
long, its first digit is not `0`. -/
def noLeadZero (cs : List Char) : Prop :=
  2 ≤ cs.length → ¬ cs.head? = some '0'

/-- C3: the Pattern Extractor only ever yields `(socket_address, ip)`
pairs rendered from a match whose four octet groups have values in
[0, 255] and whose port group has value in [0, 65535]; and the inputs
`"1.2.3.256:80"` (octet 256) and `"1.2.3.4:70000"` (port 70000) yield no
match at all. -/
theorem extractor_octet_port_bounds :
    (∀ (text : String) (pr : String × String), pr ∈ extractPairs text →
      ∃ m : RawMatch,
        pr = (String.mk (group1Chars m), String.mk (group2Chars m)) ∧
        digitsVal m.o1 ≤ 255 ∧ digitsVal m.o2 ≤ 255 ∧ digitsVal m.o3 ≤ 255 ∧
        digitsVal m.o4 ≤ 255 ∧ digitsVal m.port ≤ 65535) ∧
    extractPairs "1.2.3.256:80" = [] ∧
    extractPairs "1.2.3.4:70000" = [] := by
  refine ⟨?_, by decide, by decide⟩
  intro text pr hpr
  simp only [extractPairs, List.mem_map] at hpr
  obtain ⟨m, hm, rfl⟩ := hpr
  obtain ⟨h1, h2, h3, h4, h5⟩ := finditer_groups hm
  exact ⟨m, rfl, h1.1.2.1, h2.2.1, h3.2.1, h4.2.1, h5.2.1⟩

/-- Witness for C3 on `"1.2.3.4:80"`. -/
theorem extractor_octet_port_bounds_witness :
    ∃ m : RawMatch,
      (("1.2.3.4:80", "1.2.3.4") : String × String)
        = (String.mk (group1Chars m), String.mk (group2Chars m)) ∧
      digitsVal m.o1 ≤ 255 ∧ digitsVal m.o2 ≤ 255 ∧ digitsVal m.o3 ≤ 255 ∧
      digitsVal m.o4 ≤ 255 ∧ digitsVal m.port ≤ 65535 :=
  extractor_octet_port_bounds.1 "1.2.3.4:80" ("1.2.3.4:80", "1.2.3.4")
    (by decide)

/-- C10: every match has a first octet of value at least 1, the rendered
host never starts with the digit `0`, and no octet or port group of two
or more digits starts with `0`. -/
theorem extractor_no_leading_zero (text : List Char) (m : RawMatch)
    (hm : m ∈ finditer text) :
    1 ≤ digitsVal m.o1 ∧ ¬ (group2Chars m).head? = some '0' ∧
    noLeadZero m.o1 ∧ noLeadZero m.o2 ∧ noLeadZero m.o3 ∧ noLeadZero m.o4 ∧
    noLeadZero m.port := by
  obtain ⟨h1, h2, h3, h4, h5⟩ := finditer_groups hm
  refine ⟨h1.2.1, ?_, fun _ => h1.2.2, h2.2.2, h3.2.2, h4.2.2, h5.2.2⟩
  cases ho : m.o1 with
  | nil => exact absurd ho h1.1.1
  | cons c cs =>
    have hh := h1.2.2
    rw [ho] at hh
    simp only [List.head?] at hh
    simp only [group2Chars, ho, List.cons_append, List.head?]
    exact hh

/-- Witness for C10 on `"1.2.3.4:80"`. -/
theorem extractor_no_leading_zero_witness :
    1 ≤ digitsVal (⟨['1'], ['2'], ['3'], ['4'], ['8', '0'], 0⟩ : RawMatch).o1 ∧
    ¬ (group2Chars (⟨['1'], ['2'], ['3'], ['4'], ['8', '0'], 0⟩ : RawMatch)).head?
        = some '0' ∧
    noLeadZero (⟨['1'], ['2'], ['3'], ['4'], ['8', '0'], 0⟩ : RawMatch).o1 ∧
    noLeadZero (⟨['1'], ['2'], ['3'], ['4'], ['8', '0'], 0⟩ : RawMatch).o2 ∧
    noLeadZero (⟨['1'], ['2'], ['3'], ['4'], ['8', '0'], 0⟩ : RawMatch).o3 ∧
    noLeadZero (⟨['1'], ['2'], ['3'], ['4'], ['8', '0'], 0⟩ : RawMatch).o4 ∧
    noLeadZero (⟨['1'], ['2'], ['3'], ['4'], ['8', '0'], 0⟩ : RawMatch).port :=
  extractor_no_leading_zero ("1.2.3.4:80".toList)
    ⟨['1'], ['2'], ['3'], ['4'], ['8', '0'], 0⟩ (by decide)

/-- C2 counterexample: on the 8-octet run `"1.2.3.4.5.6.7.8:80"` the
extractor does yield a candidate whose digits lie inside the run — the
leading context group `(?:^|\D)?` is optional and `\D` accepts `.`, so
no left boundary is enforced. -/
theorem extractor_boundary_cex :
    ("5.6.7.8:80", "5.6.7.8") ∈ extractPairs "1.2.3.4.5.6.7.8:80" := by
  decide

/-- `takeClasses` consumes exactly the characters it returns. -/
theorem takeClasses_append {rgs : List (Nat × Nat)} {s cs rst : List Char}
    (h : takeClasses rgs s = some (cs, rst)) : s = cs ++ rst := by
  induction rgs generalizing s cs with
  | nil =>
    obtain ⟨rfl, rfl⟩ := takeClasses_nil h
    rfl
  | cons rg rgs ih =>
    obtain ⟨c, s', cs', rfl, _, ht, rfl⟩ := takeClasses_cons h
    simp [ih ht]

/-- `lit` consumes exactly its literal character. -/
theorem lit_eq_some {c : Char} {s r : List Char} (h : lit c s = some r) :
    s = c :: r := by
  cases s with
  | nil => simp [lit] at h
  | cons c' s' =>
    simp only [lit] at h
    by_cases hc : c' = c
    · rw [if_pos hc] at h
      obtain rfl := (Option.some.injEq _ _).mp h
      rw [hc]
    · rw [if_neg hc] at h
      exact absurd h (by simp)

/-- When the trailing `(?:\D|$)` accepts, the rest of the input is
empty or starts with a non-digit. -/
theorem tailMatch_eq_some {s : List Char} {n : Nat}
    (h : tailMatch s = some n) :
    s = [] ∨ ∃ c s', s = c :: s' ∧ inRng digitRng c = false := by
  cases s with
  | nil => exact Or.inl rfl
  | cons c s' =>
    simp only [tailMatch] at h
    by_cases hc : inRng digitRng c = true
    · rw [if_pos hc] at h
      exact absurd h (by simp)
    · exact Or.inr ⟨c, s', rfl, by simpa using hc⟩

/-- A successful core match consumes exactly `group(1)` of the input,
and what follows is empty or starts with a non-digit. -/
theorem coreMatch_decomp {s : List Char} {m : RawMatch}
    (h : coreMatch s = some m) :
    ∃ post, s = group1Chars m ++ post ∧
      (post = [] ∨ ∃ c post', post = c :: post' ∧ inRng digitRng c = false) := by
  unfold coreMatch at h
  obtain ⟨a1, ha1, o1, r1, ht1, hk1⟩ := tryAlts_eq_some h
  obtain ⟨r2, hl2, hk2⟩ := Option.bind_eq_some.mp hk1
  obtain ⟨a2, ha2, o2, r3, ht2, hk3⟩ := tryAlts_eq_some hk2
  obtain ⟨r4, hl4, hk4⟩ := Option.bind_eq_some.mp hk3
  obtain ⟨a3, ha3, o3, r5, ht3, hk5⟩ := tryAlts_eq_some hk4
  obtain ⟨r6, hl6, hk6⟩ := Option.bind_eq_some.mp hk5
  obtain ⟨a4, ha4, o4, r7, ht4, hk7⟩ := tryAlts_eq_some hk6
  obtain ⟨r8, hl8, hk8⟩ := Option.bind_eq_some.mp hk7
  obtain ⟨a5, ha5, pt, r9, ht5, hk9⟩ := tryAlts_eq_some hk8
  obtain ⟨tr, htr, hm⟩ := Option.map_eq_some'.mp hk9
  subst hm
  refine ⟨r9, ?_, tailMatch_eq_some htr⟩
  have e1 := takeClasses_append ht1
  have e2 := lit_eq_some hl2
  have e3 := takeClasses_append ht2
  have e4 := lit_eq_some hl4
  have e5 := takeClasses_append ht3
  have e6 := lit_eq_some hl6
  have e7 := takeClasses_append ht4
  have e8 := lit_eq_some hl8
  have e9 := takeClasses_append ht5
  subst e1 e2 e3 e4 e5 e6 e7 e8 e9
  simp [group1Chars, group2Chars]

/-- Every candidate consumption of the leading `(?:^|\D)?` leaves a
suffix of the input. -/
theorem leadCands_suffix {atStart : Bool} {s : List Char}
    {lc : Nat × List Char} (h : lc ∈ leadCands atStart s) :
    ∃ ld, s = ld ++ lc.2 := by
  simp only [leadCands, List.mem_append] at h
  rcases h with (h | h) | h
  · cases atStart with
    | true =>
      simp at h
      exact ⟨[], by simp [h]⟩
    | false => simp at h
  · cases s with
    | nil => simp at h
    | cons c r =>
      by_cases hd : inRng digitRng c = true
      · simp [hd] at h
      · simp [hd] at h
        exact ⟨[c], by simp [h]⟩
  · simp at h
    exact ⟨[], by simp [h]⟩

/-- A successful attempt splits the input as a leading-context part,
`group(1)`, and a right-bounded rest. -/
theorem attemptAt_decomp {atStart : Bool} {s : List Char} {lead : Nat}
    {m : RawMatch} (h : attemptAt atStart s = some (lead, m)) :
    ∃ pre post, s = pre ++ group1Chars m ++ post ∧
      (post = [] ∨ ∃ c post', post = c :: post' ∧ inRng digitRng c = false) := by
  unfold attemptAt at h
  obtain ⟨lc, hmem, hlc⟩ := firstSome_eq_some h
  obtain ⟨m', hcm, heq⟩ := Option.map_eq_some'.mp hlc
  have hm : m' = m := congrArg Prod.snd heq
  subst hm
  obtain ⟨ld, hld⟩ := leadCands_suffix hmem
  obtain ⟨post, hdec, hb⟩ := coreMatch_decomp hcm
  exact ⟨ld, post, by rw [hld, hdec]; exact (List.append_assoc _ _ _).symm, hb⟩

/-- Every match the scan reports occurs at some position of the input
and is right-bounded by non-digit-or-end context. -/
theorem scanAux_decomp {fuel : Nat} {atStart : Bool} {s : List Char}
    {m : RawMatch} (h : m ∈ scanAux fuel atStart s) :
    ∃ pre post, s = pre ++ group1Chars m ++ post ∧
      (post = [] ∨ ∃ c post', post = c :: post' ∧ inRng digitRng c = false) := by
  induction fuel generalizing atStart s with
  | zero => simp [scanAux] at h
  | succ fuel ih =>
    cases hat : attemptAt atStart s with
    | some lm =>
      obtain ⟨lead, m0⟩ := lm
      simp only [scanAux, hat] at h
      rcases List.mem_cons.mp h with rfl | htail
      · exact attemptAt_decomp hat
      · obtain ⟨pre, post, hdec, hb⟩ := ih htail
        refine ⟨s.take (lead + m0.spanLen) ++ pre, post, ?_, hb⟩
        conv_lhs => rw [← List.take_append_drop (lead + m0.spanLen) s]
        rw [hdec]
        simp [List.append_assoc]
    | none =>
      simp only [scanAux, hat] at h
      cases s with
      | nil => simp at h
      | cons c t =>
        obtain ⟨pre, post, hdec, hb⟩ := ih h
        exact ⟨c :: pre, post, by rw [hdec]; simp, hb⟩

/-- C2 (amended): every match the extractor reports is bounded on the
right by non-digit-or-end context — the input decomposes as
`pre ++ group(1) ++ post` with `post` empty or starting with a
non-digit (so e.g. `"1.2.3.4:123456"` yields nothing) — but the left
boundary is not enforced: the leading group `(?:^|\D)?` is optional
(and its `\D` accepts `.`), so `"1.2.3.4.5.6.7.8:80"` yields exactly
the candidate `("5.6.7.8:80", "5.6.7.8")` from inside the numeric run. -/
theorem extractor_boundary_amended :
    (∀ (text : List Char) (m : RawMatch), m ∈ finditer text →
      ∃ pre post, text = pre ++ group1Chars m ++ post ∧
        (post = [] ∨ ∃ c post', post = c :: post' ∧ inRng digitRng c = false)) ∧
    extractPairs "1.2.3.4.5.6.7.8:80" = [("5.6.7.8:80", "5.6.7.8")] ∧
    extractPairs "1.2.3.4:123456" = [] := by
  refine ⟨?_, by decide, by decide⟩
  intro text m hm
  unfold finditer at hm
  exact scanAux_decomp hm

/-- Witness for C2's amended theorem: on `"1.2.3.4:80x"` the match of
`1.2.3.4:80` is followed by the non-digit `x`. -/
theorem extractor_boundary_amended_witness :
    ∃ pre post,
      "1.2.3.4:80x".toList
        = pre ++ group1Chars ⟨['1'], ['2'], ['3'], ['4'], ['8', '0'], 1⟩ ++ post ∧
      (post = [] ∨ ∃ c post', post = c :: post' ∧ inRng digitRng c = false) :=
  extractor_boundary_amended.1 ("1.2.3.4:80x".toList)
    ⟨['1'], ['2'], ['3'], ['4'], ['8', '0'], 1⟩ (by decide)
